import Mathlib

/-!
Verification of `train_utils.py` (pytorch_training_toolbox).

A shallow embedding of the module's argument container (`MyArgs`), checkpoint
enumeration (`fetch_ckpt_namelist`), checkpoint loading (`get_last_ckpt`),
checkpoint saving with rotation (`save_ckpt`), and checkpoint restoring
(`load_ckpt`).

File names are lists of characters.  A directory is modelled as an association
list from file name to stored record (a real directory: at most one entry per
name, which theorems assume through a `Nodup` hypothesis on the listing).
Python exceptions are modelled with `Option`: `none` is an uncaught failure
aborting the call.
-/

/-- A file name (Python `str`), as a list of characters. -/
abbrev FName := List Char

/-- Python `s.startswith(pre)`. -/
def pyStartsWith (s pre : FName) : Bool := pre.isPrefixOf s

/-- Python `s.endswith(suf)`. -/
def pyEndsWith (s suf : FName) : Bool := suf.isSuffixOf s

/-- Core of Python `s.replace(old, '')` for nonempty `old = o :: os`:
removes every non-overlapping occurrence of `old`, scanning left to right.
The fuel argument is structural (every step consumes at least one character,
so fuel `s.length` suffices); it keeps the definition kernel-reducible. -/
def pyReplaceCore (o : Char) (os : FName) : Nat → FName → FName
  | _, [] => []
  | 0, s => s
  | fuel + 1, c :: rest =>
    if (o :: os).isPrefixOf (c :: rest) then
      pyReplaceCore o os fuel (rest.drop os.length)
    else
      c :: pyReplaceCore o os fuel rest

/-- Python `s.replace(old, '')`.  With `old = ''` Python inserts the empty
replacement everywhere, leaving `s` unchanged. -/
def pyReplace (s old : FName) : FName :=
  match old with
  | [] => s
  | o :: os => pyReplaceCore o os s.length s

/-- The characters Python `int(...)` strips around a numeral. -/
def pySpaceChar (c : Char) : Bool :=
  c = ' ' || c = '\t' || c = '\n' || c = '\r' || c = '\x0b' || c = '\x0c'

/-- Strip leading and trailing whitespace (Python numeral stripping). -/
def pyStrip (s : FName) : FName :=
  ((s.dropWhile pySpaceChar).reverse.dropWhile pySpaceChar).reverse

/-- Digit tail of a Python decimal numeral: digits, with single underscores
allowed between digits. `acc` is the value of the digits read so far. -/
def parseDigitsAux (acc : Nat) : FName → Option Nat
  | [] => some acc
  | c :: rest =>
    if c = '_' then
      match rest with
      | [] => none
      | c2 :: rest2 =>
        if c2.isDigit then parseDigitsAux (acc * 10 + (c2.toNat - 48)) rest2
        else none
    else if c.isDigit then parseDigitsAux (acc * 10 + (c.toNat - 48)) rest
    else none

/-- Unsigned Python decimal numeral: nonempty digits with single underscores
between digits. -/
def parseDigits : FName → Option Nat
  | [] => none
  | c :: rest =>
    if c.isDigit then parseDigitsAux (c.toNat - 48) rest else none

/-- Python `int(s)` on ASCII input: optional surrounding whitespace, optional
sign, then a decimal numeral.  `none` models the uncaught `ValueError`. -/
def pyInt? (s : FName) : Option Int :=
  match pyStrip s with
  | '+' :: rest => (parseDigits rest).map (fun n => (n : Int))
  | '-' :: rest => (parseDigits rest).map (fun n => -(n : Int))
  | rest => (parseDigits rest).map (fun n => (n : Int))

/-- The literal `'best'` tested by `x.startswith('best')`. -/
def bestStr : FName := 'b' :: 'e' :: 's' :: 't' :: []

/-- Comparison key used by `ckpts.sort(key=lambda x: x[1])`: compare the
parsed epoch numbers. -/
def epochLE (a b : FName × Int) : Prop := a.2 ≤ b.2

instance : DecidableRel epochLE := fun a b => inferInstanceAs (Decidable (a.2 ≤ b.2))

instance : IsTotal (FName × Int) epochLE := ⟨fun a b => Int.le_total a.2 b.2⟩

instance : IsTrans (FName × Int) epochLE := ⟨fun _ _ _ hab hbc => le_trans hab hbc⟩

/-- Python `list.sort` is a stable sort; a stable sort sorted by a total
preorder is unique as a function, so insertion sort computes it. -/
def sortCkpts (l : List (FName × Int)) : List (FName × Int) :=
  List.insertionSort epochLE l

/-- The test `x.endswith(suffix) and (not x.startswith('best'))` selecting the
files that `fetch_ckpt_namelist` treats as numbered checkpoints. -/
def isNumberedName (suffix x : FName) : Bool :=
  pyEndsWith x suffix && !(pyStartsWith x bestStr)

/-- The loop body of `fetch_ckpt_namelist`: walk the directory listing and
collect `(x, int(x.replace(suffix, '')))` for every `x` that ends with the
suffix and does not start with `'best'`.  A failing `int(...)` aborts the
whole call (`none`). -/
def collectCkpts (suffix : FName) : List FName → Option (List (FName × Int))
  | [] => some []
  | x :: rest =>
    if isNumberedName suffix x then
      match pyInt? (pyReplace x suffix) with
      | none => none
      | some n => (collectCkpts suffix rest).map (fun l => (x, n) :: l)
    else
      collectCkpts suffix rest

/-- Python `fetch_ckpt_namelist(ckptdir, suffix)`: list the numbered checkpoints of
the directory (given as its `os.listdir` listing) together with their epoch
numbers, sorted ascending by epoch; `[]` when nothing matches. -/
def fetch_ckpt_namelist (dir : List FName) (suffix : FName) :
    Option (List (FName × Int)) :=
  (collectCkpts suffix dir).map
    (fun ckpts => if ckpts.length = 0 then [] else sortCkpts ckpts)

/-! ## The filesystem model -/

/-- A directory: an association list from file name to stored record. -/
abbrev FS (R : Type) := List (FName × R)

/-- Python `os.listdir`. -/
def listdir {R : Type} (fs : FS R) : List FName := fs.map Prod.fst

/-- Python `torch.save(r, n)`: (over)write file `n` with content `r`. -/
def fsWrite {R : Type} (fs : FS R) (n : FName) (r : R) : FS R :=
  (n, r) :: fs.filter (fun p => p.1 ≠ n)

/-- Python `os.remove(n)`. -/
def fsRemove {R : Type} (fs : FS R) (n : FName) : FS R :=
  fs.filter (fun p => p.1 ≠ n)

/-- Python `torch.load(n)` and `os.path.exists(n)` combined: the content of file `n`
when present. -/
def fsRead {R : Type} (fs : FS R) (n : FName) : Option R :=
  (fs.find? (fun p => p.1 = n)).map Prod.snd

/-- The checkpoint record (`ckptdict`) written by `save_ckpt`: epoch, best
validation loss, its epoch, and the three exported state blobs. -/
structure CkptDict (E L MS OS SS : Type) where
  epoch : E
  best_valid_loss : L
  best_valid_epoch : E
  model : MS
  optimizer : OS
  scheduler : SS
deriving DecidableEq

/-- The record built at the top of `save_ckpt` from the five scalar fields and
the three `state_dict()` exports. -/
def mkCkptDict {E L MS OS SS M O S : Type}
    (sdM : M → MS) (sdO : O → OS) (sdS : S → SS)
    (epoch : E) (best_valid_loss : L) (best_valid_epoch : E)
    (model : M) (optimizer : O) (scheduler : S) : CkptDict E L MS OS SS :=
  ⟨epoch, best_valid_loss, best_valid_epoch, sdM model, sdO optimizer, sdS scheduler⟩

/-- Python `save_ckpt(...)`: write the record to `pre ++ suffix`, then list the
numbered checkpoints and delete the oldest ones while more than `max_to_keep`
remain.  Returns the updated directory and the record; `none` when the
re-listing fails (parse error propagates). -/
def save_ckpt {E L MS OS SS M O S : Type}
    (sdM : M → MS) (sdO : O → OS) (sdS : S → SS)
    (epoch : E) (best_valid_loss : L) (best_valid_epoch : E)
    (model : M) (optimizer : O) (scheduler : S)
    (fs : FS (CkptDict E L MS OS SS)) (pre suffix : FName) (max_to_keep : Nat) :
    Option (FS (CkptDict E L MS OS SS) × CkptDict E L MS OS SS) :=
  let ckptdict := mkCkptDict sdM sdO sdS epoch best_valid_loss best_valid_epoch
    model optimizer scheduler
  let fs1 := fsWrite fs (pre ++ suffix) ckptdict
  match fetch_ckpt_namelist (listdir fs1) suffix with
  | none => none
  | some ckpts =>
    if ckpts.length > max_to_keep then
      some ((ckpts.take (ckpts.length - max_to_keep)).foldl
              (fun f p => fsRemove f p.1) fs1,
            ckptdict)
    else
      some (fs1, ckptdict)

/-- Python `get_last_ckpt(ckptdir, device, suffix, specify)`.  The result pair is
`(last, best)`; `none` models an uncaught exception (missing `specify` file,
or a parse error from the listing). -/
def get_last_ckpt {R D : Type} (fs : FS R) (_device : D) (suffix : FName)
    (specify : Option FName) : Option (Option R × Option R) :=
  let lastRes : Option (Option R) :=
    match specify with
    | some sp =>
      match fsRead fs (sp ++ suffix) with
      | none => none
      | some r => some (some r)
    | none =>
      match fetch_ckpt_namelist (listdir fs) suffix with
      | none => none
      | some ckpts =>
        match ckpts.getLast? with
        | none => some none
        | some p =>
          match fsRead fs p.1 with
          | none => none
          | some r => some (some r)
  match lastRes with
  | none => none
  | some last => some (last, fsRead fs (bestStr ++ suffix))

/-- Python `load_ckpt(model, optimizer, scheduler, ckpt, restore_opt_sche)`, with the
framework collaborators passed explicitly: `loadM` is the model's
`load_state_dict`, `wrap` is `torch.nn.DataParallel`, `loadW` the wrapper's
`load_state_dict`, `unwrap` is `.module`, and `loadO`/`loadS` the optimizer
and scheduler imports.  Each import returns `none` on failure; the
bare import failure is caught once and retried through the wrapper,
everything else propagates. -/
def load_ckpt {E L MS OS SS M W O S : Type}
    (loadM : M → MS → Option M) (wrap : M → W) (loadW : W → MS → Option W)
    (unwrap : W → M) (loadO : O → OS → Option O) (loadS : S → SS → Option S)
    (model : M) (optimizer : O) (scheduler : S)
    (ckpt : CkptDict E L MS OS SS) (restore_opt_sche : Bool) :
    Option (E × L × E × M × O × S) :=
  let modelRes : Option M :=
    match loadM model ckpt.model with
    | some m => some m
    | none =>
      match loadW (wrap model) ckpt.model with
      | some w => some (unwrap w)
      | none => none
  match modelRes with
  | none => none
  | some m =>
    if restore_opt_sche then
      match loadO optimizer ckpt.optimizer with
      | none => none
      | some o =>
        match loadS scheduler ckpt.scheduler with
        | none => none
        | some s =>
          some (ckpt.epoch, ckpt.best_valid_loss, ckpt.best_valid_epoch, m, o, s)
    else
      some (ckpt.epoch, ckpt.best_valid_loss, ckpt.best_valid_epoch,
            m, optimizer, scheduler)

/-! ## Lemmas about the listing -/

theorem sortCkpts_perm (l : List (FName × Int)) : List.Perm (sortCkpts l) l :=
  List.perm_insertionSort epochLE l

theorem sortCkpts_sorted (l : List (FName × Int)) : List.Sorted epochLE (sortCkpts l) :=
  List.sorted_insertionSort epochLE l

/-- Unfolding lemma: `fetch_ckpt_namelist` is: collect the matching files, then sort. -/
theorem fetch_eq (dir : List FName) (suffix : FName) :
    fetch_ckpt_namelist dir suffix = (collectCkpts suffix dir).map sortCkpts := by
  unfold fetch_ckpt_namelist
  cases h : collectCkpts suffix dir with
  | none => rfl
  | some c =>
    cases c with
    | nil => rfl
    | cons a t => simp [sortCkpts]

/-- Filtering the directory listing filters the collected checkpoints. -/
theorem collect_filter (suffix : FName) (keep : FName → Bool) :
    ∀ (dir : List FName) (c : List (FName × Int)),
      collectCkpts suffix dir = some c →
      collectCkpts suffix (dir.filter keep) = some (c.filter (fun e => keep e.1)) := by
  intro dir
  induction dir with
  | nil =>
    intro c hc
    simp only [collectCkpts] at hc
    cases hc
    rfl
  | cons x rest ih =>
    intro c hc
    simp only [collectCkpts] at hc
    by_cases hm : isNumberedName suffix x
    · rw [if_pos hm] at hc
      cases hp : pyInt? (pyReplace x suffix) with
      | none => rw [hp] at hc; cases hc
      | some n =>
        rw [hp] at hc
        cases hr : collectCkpts suffix rest with
        | none => rw [hr] at hc; cases hc
        | some c0 =>
          rw [hr] at hc
          simp only [Option.map] at hc
          cases hc
          by_cases hk : keep x = true
          · simp [List.filter_cons, hk, collectCkpts, hm, hp, ih c0 hr]
          · simp only [List.filter_cons, hk, if_false, Bool.false_eq_true]
            rw [ih c0 hr]
    · rw [if_neg hm] at hc
      by_cases hk : keep x = true
      · simp only [List.filter_cons, hk, if_true]
        simp only [collectCkpts, hm, if_false]
        simpa using ih c hc
      · simp only [List.filter_cons, hk, if_false, Bool.false_eq_true]
        exact ih c hc

/-- The collected names are exactly the listed names passing the
numbered-checkpoint test. -/
theorem collect_mem_fst (suffix : FName) :
    ∀ (dir : List FName) (c : List (FName × Int)),
      collectCkpts suffix dir = some c →
      ∀ x, x ∈ c.map Prod.fst ↔ (x ∈ dir ∧ isNumberedName suffix x = true) := by
  intro dir
  induction dir with
  | nil =>
    intro c hc x
    simp only [collectCkpts] at hc
    cases hc
    simp
  | cons y rest ih =>
    intro c hc x
    simp only [collectCkpts] at hc
    by_cases hm : isNumberedName suffix y
    · rw [if_pos hm] at hc
      cases hp : pyInt? (pyReplace y suffix) with
      | none => rw [hp] at hc; cases hc
      | some n =>
        rw [hp] at hc
        cases hr : collectCkpts suffix rest with
        | none => rw [hr] at hc; cases hc
        | some c0 =>
          rw [hr] at hc
          simp only [Option.map] at hc
          cases hc
          simp only [List.map_cons, List.mem_cons, ih c0 hr x]
          constructor
          · rintro (rfl | ⟨hx, hn⟩)
            · exact ⟨Or.inl rfl, hm⟩
            · exact ⟨Or.inr hx, hn⟩
          · rintro ⟨(rfl | hx), hn⟩
            · exact Or.inl rfl
            · exact Or.inr ⟨hx, hn⟩
    · rw [if_neg hm] at hc
      rw [ih c hc x]
      simp only [List.mem_cons]
      constructor
      · rintro ⟨hx, hn⟩
        exact ⟨Or.inr hx, hn⟩
      · rintro ⟨(rfl | hx), hn⟩
        · exact absurd hn hm
        · exact ⟨hx, hn⟩

/-- Every collected pair passes the numbered test and carries the parsed epoch
of its name with the suffix occurrences removed. -/
theorem collect_elem_props (suffix : FName) :
    ∀ (dir : List FName) (c : List (FName × Int)),
      collectCkpts suffix dir = some c →
      ∀ p ∈ c, isNumberedName suffix p.1 = true ∧
        pyInt? (pyReplace p.1 suffix) = some p.2 := by
  intro dir
  induction dir with
  | nil =>
    intro c hc p hp
    simp only [collectCkpts] at hc
    cases hc
    cases hp
  | cons y rest ih =>
    intro c hc p hp
    simp only [collectCkpts] at hc
    by_cases hm : isNumberedName suffix y
    · rw [if_pos hm] at hc
      cases hn : pyInt? (pyReplace y suffix) with
      | none => rw [hn] at hc; cases hc
      | some n =>
        rw [hn] at hc
        cases hr : collectCkpts suffix rest with
        | none => rw [hr] at hc; cases hc
        | some c0 =>
          rw [hr] at hc
          simp only [Option.map] at hc
          cases hc
          rcases List.mem_cons.mp hp with rfl | hp0
          · exact ⟨hm, hn⟩
          · exact ih c0 hr p hp0
    · rw [if_neg hm] at hc
      exact ih c hc p hp

/-- The collected names form a sublist of the directory listing. -/
theorem collect_fst_sublist (suffix : FName) :
    ∀ (dir : List FName) (c : List (FName × Int)),
      collectCkpts suffix dir = some c → List.Sublist (c.map Prod.fst) dir := by
  intro dir
  induction dir with
  | nil =>
    intro c hc
    simp only [collectCkpts] at hc
    cases hc
    simp
  | cons y rest ih =>
    intro c hc
    simp only [collectCkpts] at hc
    by_cases hm : isNumberedName suffix y
    · rw [if_pos hm] at hc
      cases hn : pyInt? (pyReplace y suffix) with
      | none => rw [hn] at hc; cases hc
      | some n =>
        rw [hn] at hc
        cases hr : collectCkpts suffix rest with
        | none => rw [hr] at hc; cases hc
        | some c0 =>
          rw [hr] at hc
          simp only [Option.map] at hc
          cases hc
          exact List.Sublist.cons₂ y (ih c0 hr)
    · rw [if_neg hm] at hc
      exact List.Sublist.cons y (ih c hc)

/-- Failure lemma: `collectCkpts` fails exactly when some listed file passes the numbered
test but its prefix does not parse as an integer. -/
theorem collect_none_iff (suffix : FName) :
    ∀ dir : List FName,
      collectCkpts suffix dir = none ↔
        ∃ x, x ∈ dir ∧ isNumberedName suffix x = true ∧
          pyInt? (pyReplace x suffix) = none := by
  intro dir
  induction dir with
  | nil => simp [collectCkpts]
  | cons y rest ih =>
    simp only [collectCkpts]
    by_cases hm : isNumberedName suffix y
    · rw [if_pos hm]
      cases hn : pyInt? (pyReplace y suffix) with
      | none =>
        simp only [true_iff]
        exact ⟨y, List.mem_cons_self y rest, hm, hn⟩
      | some n =>
        constructor
        · intro h
          rcases Option.map_eq_none'.mp h with h0
          rcases ih.mp h0 with ⟨x, hx, hxm, hxp⟩
          exact ⟨x, List.mem_cons_of_mem y hx, hxm, hxp⟩
        · rintro ⟨x, hx, hxm, hxp⟩
          rcases List.mem_cons.mp hx with rfl | hx0
          · rw [hn] at hxp; cases hxp
          · rw [Option.map_eq_none']
            exact ih.mpr ⟨x, hx0, hxm, hxp⟩
    · rw [if_neg hm]
      constructor
      · intro h
        rcases ih.mp h with ⟨x, hx, hxm, hxp⟩
        exact ⟨x, List.mem_cons_of_mem y hx, hxm, hxp⟩
      · rintro ⟨x, hx, hxm, hxp⟩
        rcases List.mem_cons.mp hx with rfl | hx0
        · exact absurd hxm hm
        · exact ih.mpr ⟨x, hx0, hxm, hxp⟩

/-! ## Lemmas about the filesystem model -/

theorem map_fst_filter {R : Type} (q : FName → Bool) :
    ∀ fs : FS R, (fs.filter (fun p => q p.1)).map Prod.fst = (fs.map Prod.fst).filter q := by
  intro fs
  induction fs with
  | nil => rfl
  | cons p rest ih =>
    by_cases h : q p.1 = true
    · simp [List.filter_cons, h, ih]
    · simp [List.filter_cons, h, ih]

theorem listdir_fsWrite {R : Type} (fs : FS R) (n : FName) (r : R) :
    listdir (fsWrite fs n r) = n :: (listdir fs).filter (fun m => m ≠ n) := by
  unfold listdir fsWrite
  simp only [List.map_cons]
  rw [map_fst_filter (fun m => decide (m ≠ n)) fs]

theorem listdir_fsRemove {R : Type} (fs : FS R) (n : FName) :
    listdir (fsRemove fs n) = (listdir fs).filter (fun m => m ≠ n) := by
  unfold listdir fsRemove
  rw [map_fst_filter (fun m => decide (m ≠ n)) fs]

theorem nodup_listdir_fsWrite {R : Type} (fs : FS R) (n : FName) (r : R)
    (h : (listdir fs).Nodup) : (listdir (fsWrite fs n r)).Nodup := by
  rw [listdir_fsWrite]
  refine List.nodup_cons.mpr ⟨?_, h.filter _⟩
  intro hmem
  rcases List.mem_filter.mp hmem with ⟨_, hdec⟩
  exact absurd rfl (of_decide_eq_true hdec)

theorem foldl_fsRemove_pairs {R : Type} :
    ∀ (l : List (FName × Int)) (fs : FS R),
      l.foldl (fun f p => fsRemove f p.1) fs = (l.map Prod.fst).foldl fsRemove fs := by
  intro l
  induction l with
  | nil => intro fs; rfl
  | cons p rest ih => intro fs; simp [List.foldl_cons, ih]

theorem listdir_foldl_fsRemove {R : Type} :
    ∀ (ns : List FName) (fs : FS R),
      listdir (ns.foldl fsRemove fs) = (listdir fs).filter (fun m => decide (m ∉ ns)) := by
  intro ns
  induction ns with
  | nil =>
    intro fs
    exact (List.filter_eq_self.mpr (fun a _ => by simp)).symm
  | cons n ns ih =>
    intro fs
    rw [List.foldl_cons, ih, listdir_fsRemove, List.filter_filter]
    refine List.filter_congr ?_
    intro m _
    by_cases h1 : m = n <;> by_cases h2 : m ∈ ns <;> simp [h1, h2]

/-- Membership of a name in a directory listing is preserved by removing a
batch of other names. -/
theorem mem_listdir_foldl_fsRemove {R : Type} (ns : List FName) (fs : FS R)
    (m : FName) (hm : m ∉ ns) :
    m ∈ listdir (ns.foldl fsRemove fs) ↔ m ∈ listdir fs := by
  rw [listdir_foldl_fsRemove]
  constructor
  · intro h
    exact (List.mem_filter.mp h).1
  · intro h
    exact List.mem_filter.mpr ⟨h, decide_eq_true hm⟩

/-- Filtering away the first `k` names of a duplicate-free sorted listing
keeps exactly the remaining `ckpts.drop k`. -/
theorem filter_not_mem_take (k : Nat) (ckpts : List (FName × Int))
    (hnd : (ckpts.map Prod.fst).Nodup) :
    ckpts.filter (fun e => decide (e.1 ∉ (ckpts.take k).map Prod.fst)) = ckpts.drop k := by
  set ns := (ckpts.take k).map Prod.fst with hns
  have h1 : (ckpts.take k).filter (fun e => decide (e.1 ∉ ns)) = [] := by
    rw [List.filter_eq_nil_iff]
    intro e he
    simp only [decide_eq_true_eq, not_not, Decidable.not_not]
    exact hns ▸ List.mem_map_of_mem Prod.fst he
  have h2 : (ckpts.drop k).filter (fun e => decide (e.1 ∉ ns)) = ckpts.drop k := by
    rw [List.filter_eq_self]
    intro e he
    have hmem : e.1 ∉ ns := by
      intro hc
      rw [← List.take_append_drop k ckpts, List.map_append] at hnd
      exact (List.nodup_append.mp hnd).2.2 (hns ▸ hc) (List.mem_map_of_mem Prod.fst he)
    exact decide_eq_true hmem
  conv_lhs => rw [← List.take_append_drop k ckpts]
  rw [List.filter_append, h1, h2, List.nil_append]

/-- On a duplicate-free listing, the names in a successful
`fetch_ckpt_namelist` result are duplicate-free. -/
theorem fetch_nodup_fst (dir : List FName) (suffix : FName)
    (ckpts : List (FName × Int)) (hnd : dir.Nodup)
    (h : fetch_ckpt_namelist dir suffix = some ckpts) :
    (ckpts.map Prod.fst).Nodup := by
  rw [fetch_eq] at h
  cases hc : collectCkpts suffix dir with
  | none => rw [hc] at h; cases h
  | some c =>
    rw [hc] at h
    simp only [Option.map] at h
    cases h
    have hsub := collect_fst_sublist suffix dir c hc
    have hcnd : (c.map Prod.fst).Nodup := hsub.nodup hnd
    exact (List.Perm.nodup_iff ((sortCkpts_perm c).map Prod.fst)).mpr hcnd

/-- C1, general part: a successful `save_ckpt` first produces the directory
with the new file written; when the numbered files then exceed
`max_to_keep`, the surviving numbered files are exactly the listing with the
oldest entries dropped — `max_to_keep` of them; files named with a `best`
prefix are untouched either way. -/
theorem save_ckpt_rotation {E L MS OS SS M O S : Type}
    (sdM : M → MS) (sdO : O → OS) (sdS : S → SS)
    (epoch : E) (bvl : L) (bve : E) (model : M) (optimizer : O) (scheduler : S)
    (fs fs2 : FS (CkptDict E L MS OS SS)) (ck : CkptDict E L MS OS SS)
    (pre suffix : FName) (maxk : Nat)
    (hnd : (listdir fs).Nodup)
    (hsv : save_ckpt sdM sdO sdS epoch bvl bve model optimizer scheduler
             fs pre suffix maxk = some (fs2, ck)) :
    ∃ ckpts,
      fetch_ckpt_namelist (listdir (fsWrite fs (pre ++ suffix) ck)) suffix = some ckpts ∧
      (ckpts.length > maxk →
        ∃ ckpts2, fetch_ckpt_namelist (listdir fs2) suffix = some ckpts2 ∧
          ckpts2.length = maxk ∧
          List.Perm ckpts2 (ckpts.drop (ckpts.length - maxk))) ∧
      (ckpts.length ≤ maxk → fs2 = fsWrite fs (pre ++ suffix) ck) ∧
      (∀ n, pyStartsWith n bestStr = true →
        (n ∈ listdir fs2 ↔ n ∈ listdir (fsWrite fs (pre ++ suffix) ck))) := by
  simp only [save_ckpt] at hsv
  cases hfetch : fetch_ckpt_namelist
      (listdir (fsWrite fs (pre ++ suffix)
        (mkCkptDict sdM sdO sdS epoch bvl bve model optimizer scheduler))) suffix with
  | none => rw [hfetch] at hsv; cases hsv
  | some ckpts =>
    rw [hfetch] at hsv
    dsimp only at hsv
    have hnd1 : (listdir (fsWrite fs (pre ++ suffix)
        (mkCkptDict sdM sdO sdS epoch bvl bve model optimizer scheduler))).Nodup :=
      nodup_listdir_fsWrite fs _ _ hnd
    by_cases hgt : ckpts.length > maxk
    · rw [if_pos hgt] at hsv
      injection hsv with hsv
      injection hsv with hfs2 hck
      subst hck
      subst hfs2
      refine ⟨ckpts, hfetch, ?_, ?_, ?_⟩
      · intro _
        -- the removal batch
        set fs1 := fsWrite fs (pre ++ suffix)
          (mkCkptDict sdM sdO sdS epoch bvl bve model optimizer scheduler) with hfs1
        set k := ckpts.length - maxk with hk
        set ns := ((ckpts.take k).map Prod.fst) with hns
        have hfold : (ckpts.take k).foldl (fun f p => fsRemove f p.1) fs1
            = ns.foldl fsRemove fs1 := by
          rw [foldl_fsRemove_pairs]
        have hlist : listdir (ns.foldl fsRemove fs1)
            = (listdir fs1).filter (fun m => decide (m ∉ ns)) :=
          listdir_foldl_fsRemove ns fs1
        -- the collected checkpoints of fs1
        rw [fetch_eq] at hfetch
        cases hc : collectCkpts suffix (listdir fs1) with
        | none => rw [hc] at hfetch; cases hfetch
        | some c =>
          rw [hc] at hfetch
          simp only [Option.map] at hfetch
          injection hfetch with hsort
          have hcf := collect_filter suffix (fun m => decide (m ∉ ns)) (listdir fs1) c hc
          have hfetch2 : fetch_ckpt_namelist (listdir (ns.foldl fsRemove fs1)) suffix
              = some (sortCkpts (c.filter (fun e => decide (e.1 ∉ ns)))) := by
            rw [fetch_eq, hlist, hcf]
            rfl
          have hndf : (ckpts.map Prod.fst).Nodup := by
            rw [← hsort]
            have hsub := collect_fst_sublist suffix (listdir fs1) c hc
            exact (List.Perm.nodup_iff ((sortCkpts_perm c).map Prod.fst)).mpr
              (hsub.nodup hnd1)
          have hdrop : ckpts.filter (fun e => decide (e.1 ∉ ns)) = ckpts.drop k := by
            rw [hns]
            exact filter_not_mem_take k ckpts hndf
          have hperm : List.Perm (sortCkpts (c.filter (fun e => decide (e.1 ∉ ns))))
              (ckpts.drop k) := by
            refine (sortCkpts_perm _).trans ?_
            rw [← hdrop]
            have hcp : List.Perm c ckpts := by
              rw [← hsort]; exact (sortCkpts_perm c).symm
            exact hcp.filter _
          refine ⟨sortCkpts (c.filter (fun e => decide (e.1 ∉ ns))), ?_, ?_, hperm⟩
          · rw [← hfold] at hfetch2
            exact hfetch2
          · rw [hperm.length_eq, List.length_drop]
            omega
      · intro hle
        omega
      · intro n hbest
        have hn : n ∉ ((ckpts.take (ckpts.length - maxk)).map Prod.fst) := by
          intro hc
          rcases List.mem_map.mp hc with ⟨p, hp, rfl⟩
          have hpc : p ∈ ckpts := List.mem_of_mem_take hp
          -- transfer p to the collected list
          rw [fetch_eq] at hfetch
          cases hcc : collectCkpts suffix (listdir (fsWrite fs (pre ++ suffix)
              (mkCkptDict sdM sdO sdS epoch bvl bve model optimizer scheduler))) with
          | none => rw [hcc] at hfetch; cases hfetch
          | some c =>
            rw [hcc] at hfetch
            simp only [Option.map] at hfetch
            injection hfetch with hsort
            have hpc2 : p ∈ c := by
              rw [← hsort] at hpc
              exact (sortCkpts_perm c).mem_iff.mp hpc
            have := (collect_elem_props suffix _ c hcc p hpc2).1
            simp only [isNumberedName, Bool.and_eq_true, Bool.not_eq_true'] at this
            rw [this.2] at hbest
            cases hbest
        rw [foldl_fsRemove_pairs]
        exact mem_listdir_foldl_fsRemove _ _ n hn
    · rw [if_neg hgt] at hsv
      injection hsv with hsv
      injection hsv with hfs2 hck
      subst hck
      subst hfs2
      exact ⟨ckpts, hfetch, fun h => absurd h hgt, fun _ => rfl, fun n _ => Iff.rfl⟩

/-! ## Claims about the listing -/

/-- Convert a string literal to a file name. -/
def strName (s : String) : FName := s.data

/-- The default checkpoint suffix. -/
def ckSuffix : FName := strName "_checkpoint.pt"

/-- C3 (amended): a successful `fetch_ckpt_namelist` is sorted ascending by
epoch number; it contains exactly the listed names that end in the suffix and
do not start with `best`; each pair carries the integer parsed from its name
with the suffix occurrences removed; and it is empty when nothing matches. -/
theorem fetch_listing_spec (dir : List FName) (suffix : FName)
    (l : List (FName × Int)) (h : fetch_ckpt_namelist dir suffix = some l) :
    List.Sorted epochLE l ∧
    (∀ x, x ∈ l.map Prod.fst ↔
      (x ∈ dir ∧ pyEndsWith x suffix = true ∧ pyStartsWith x bestStr = false)) ∧
    (∀ p ∈ l, pyInt? (pyReplace p.1 suffix) = some p.2) ∧
    ((∀ x ∈ dir, ¬(pyEndsWith x suffix = true ∧ pyStartsWith x bestStr = false)) →
      l = []) := by
  rw [fetch_eq] at h
  cases hc : collectCkpts suffix dir with
  | none => rw [hc] at h; cases h
  | some c =>
    rw [hc] at h
    simp only [Option.map] at h
    injection h with h
    subst h
    have hmem := collect_mem_fst suffix dir c hc
    have hnum : ∀ x, isNumberedName suffix x = true ↔
        (pyEndsWith x suffix = true ∧ pyStartsWith x bestStr = false) := by
      intro x
      simp [isNumberedName, Bool.and_eq_true, Bool.not_eq_true']
    refine ⟨sortCkpts_sorted c, ?_, ?_, ?_⟩
    · intro x
      have hx : x ∈ (sortCkpts c).map Prod.fst ↔ x ∈ c.map Prod.fst :=
        ((sortCkpts_perm c).map Prod.fst).mem_iff
      rw [hx, hmem x, hnum x]
    · intro p hp
      have hp2 : p ∈ c := (sortCkpts_perm c).mem_iff.mp hp
      exact (collect_elem_props suffix dir c hc p hp2).2
    · intro hno
      have hcnil : c = [] := by
        cases hcc : c with
        | nil => rfl
        | cons p rest =>
          exfalso
          have hpm : p.1 ∈ c.map Prod.fst := by
            rw [hcc]; exact List.mem_map_of_mem Prod.fst (List.mem_cons_self p rest)
          rcases (hmem p.1).mp hpm with ⟨hdir, hnumv⟩
          exact hno p.1 hdir ((hnum p.1).mp hnumv)
      subst hcnil
      rfl

/-- C3 counterexample: on a directory holding only `best2_checkpoint.pt`, the
claim's filter ("ends in the suffix and is not equal to `'best' + suffix`")
selects the file, yet `fetch_ckpt_namelist` succeeds with the empty listing:
the code excludes every name starting with `best`, not just the best file. -/
theorem fetch_listing_cex :
    fetch_ckpt_namelist [strName "best2_checkpoint.pt"] ckSuffix = some [] ∧
    pyEndsWith (strName "best2_checkpoint.pt") ckSuffix = true ∧
    strName "best2_checkpoint.pt" ≠ bestStr ++ ckSuffix := by
  refine ⟨?_, ?_, ?_⟩ <;> decide

/-- C3 witness: the specification's four-file example, checked concretely and
then run through `fetch_listing_spec`. -/
theorem fetch_listing_spec_witness :
    fetch_ckpt_namelist
        [strName "2_checkpoint.pt", strName "10_checkpoint.pt",
         strName "best_checkpoint.pt", strName "5_checkpoint.pt"] ckSuffix
      = some [(strName "2_checkpoint.pt", 2), (strName "5_checkpoint.pt", 5),
              (strName "10_checkpoint.pt", 10)] ∧
    List.Sorted epochLE
      [(strName "2_checkpoint.pt", 2), (strName "5_checkpoint.pt", 5),
       (strName "10_checkpoint.pt", 10)] := by
  constructor
  · decide
  · exact (fetch_listing_spec
      [strName "2_checkpoint.pt", strName "10_checkpoint.pt",
       strName "best_checkpoint.pt", strName "5_checkpoint.pt"] ckSuffix
      [(strName "2_checkpoint.pt", 2), (strName "5_checkpoint.pt", 5),
       (strName "10_checkpoint.pt", 10)] (by decide)).1

/-- C4 (amended): the listing fails exactly when some listed file ends in the
suffix, does not start with `best`, and the string left after removing the
suffix occurrences does not parse as an integer; the failure aborts the
call (`none`), it is not caught. -/
theorem fetch_parse_error_iff (dir : List FName) (suffix : FName) :
    fetch_ckpt_namelist dir suffix = none ↔
      ∃ x, x ∈ dir ∧ pyEndsWith x suffix = true ∧ pyStartsWith x bestStr = false ∧
        pyInt? (pyReplace x suffix) = none := by
  rw [fetch_eq, Option.map_eq_none', collect_none_iff]
  constructor
  · rintro ⟨x, hx, hnum, hp⟩
    have h2 : pyEndsWith x suffix = true ∧ pyStartsWith x bestStr = false := by
      simpa [isNumberedName, Bool.and_eq_true, Bool.not_eq_true'] using hnum
    exact ⟨x, hx, h2.1, h2.2, hp⟩
  · rintro ⟨x, hx, he, hs, hp⟩
    refine ⟨x, hx, ?_, hp⟩
    simp [isNumberedName, he, hs]

/-- C4 counterexample: `best7_checkpoint.pt` ends with the suffix, differs
from the best file's name, and its prefix `best7` is not an integer, yet the
listing call succeeds: the file never reaches the parser because the code
filters out every name starting with `best`. -/
theorem fetch_parse_error_cex :
    pyEndsWith (strName "best7_checkpoint.pt") ckSuffix = true ∧
    strName "best7_checkpoint.pt" ≠ bestStr ++ ckSuffix ∧
    pyInt? (pyReplace (strName "best7_checkpoint.pt") ckSuffix) = none ∧
    fetch_ckpt_namelist [strName "best7_checkpoint.pt"] ckSuffix ≠ none := by
  refine ⟨?_, ?_, ?_, ?_⟩ <;> decide

/-! ## Concrete rotation scenario: five saves, `max_to_keep = 3` -/

/-- Demo record type: scalar epochs, unit state blobs. -/
abbrev DemoCk := CkptDict Nat Nat Unit Unit Unit

/-- One demo save of epoch `i`, prefix `str(i)`, keeping 3 checkpoints. -/
def demoSave (fs : FS DemoCk) (i : Nat) : Option (FS DemoCk × DemoCk) :=
  save_ckpt (fun _ => ()) (fun _ => ()) (fun _ => ()) i 0 i () () () fs
    (strName (toString i)) ckSuffix 3

/-- The directory after `n` demo saves with ascending epochs `1, ..., n`,
starting from an empty directory. -/
def demoFS : Nat → FS DemoCk
  | 0 => []
  | n + 1 =>
    match demoSave (demoFS n) (n + 1) with
    | some (fs2, _) => fs2
    | none => demoFS n

/-- C1 witness: the fifth save on the demo directory satisfies the rotation
theorem's hypotheses, and after five saves with `max_to_keep = 3` exactly the
three most recent numbered checkpoints remain. -/
theorem save_ckpt_rotation_witness :
    (listdir (demoFS 4)).Nodup ∧
    demoSave (demoFS 4) 5 = some (demoFS 5, ⟨5, 0, 5, (), (), ()⟩) ∧
    fetch_ckpt_namelist (listdir (demoFS 5)) ckSuffix =
      some [(strName "3_checkpoint.pt", 3), (strName "4_checkpoint.pt", 4),
            (strName "5_checkpoint.pt", 5)] ∧
    [(strName "3_checkpoint.pt", (3 : Int)), (strName "4_checkpoint.pt", 4),
     (strName "5_checkpoint.pt", 5)].length = 3 := by
  have hnd : (listdir (demoFS 4)).Nodup := by decide
  have hsv : demoSave (demoFS 4) 5 = some (demoFS 5, ⟨5, 0, 5, (), (), ()⟩) := by decide
  have hfinal : fetch_ckpt_namelist (listdir (demoFS 5)) ckSuffix =
      some [(strName "3_checkpoint.pt", 3), (strName "4_checkpoint.pt", 4),
            (strName "5_checkpoint.pt", 5)] := by decide
  obtain ⟨ckpts, hf, hexceed, -, -⟩ :=
    save_ckpt_rotation (fun _ => ()) (fun _ => ()) (fun _ => ()) 5 0 5 () () ()
      (demoFS 4) (demoFS 5) ⟨5, 0, 5, (), (), ()⟩ (strName "5") ckSuffix 3 hnd hsv
  have hcomp : fetch_ckpt_namelist
      (listdir (fsWrite (demoFS 4) (strName "5" ++ ckSuffix) ⟨5, 0, 5, (), (), ()⟩))
      ckSuffix =
      some [(strName "2_checkpoint.pt", 2), (strName "3_checkpoint.pt", 3),
            (strName "4_checkpoint.pt", 4), (strName "5_checkpoint.pt", 5)] := by
    decide
  have hck : ckpts = [(strName "2_checkpoint.pt", 2), (strName "3_checkpoint.pt", 3),
      (strName "4_checkpoint.pt", 4), (strName "5_checkpoint.pt", 5)] :=
    Option.some.inj (hf.symm.trans hcomp)
  have hlen : ckpts.length > 3 := by rw [hck]; decide
  obtain ⟨ckpts2, hf2, hlen2, -⟩ := hexceed hlen
  have hck2 : ckpts2 = [(strName "3_checkpoint.pt", 3), (strName "4_checkpoint.pt", 4),
      (strName "5_checkpoint.pt", 5)] :=
    Option.some.inj (hf2.symm.trans hfinal)
  exact ⟨hnd, hsv, hfinal, by rw [← hck2]; exact hlen2⟩

/-! ## Claims about `get_last_ckpt` -/

/-- C6: with `specify` given, exactly the file `specify ++ suffix` is read as
the "last" checkpoint; when that file is absent the call fails (the load
error propagates), even if other numbered checkpoints exist. -/
theorem get_last_ckpt_specify {R D : Type} (fs : FS R) (device : D)
    (suffix sp : FName) :
    (fsRead fs (sp ++ suffix) = none →
      get_last_ckpt fs device suffix (some sp) = none) ∧
    (∀ r, fsRead fs (sp ++ suffix) = some r →
      get_last_ckpt fs device suffix (some sp)
        = some (some r, fsRead fs (bestStr ++ suffix))) := by
  constructor
  · intro h
    simp [get_last_ckpt, h]
  · intro r h
    simp [get_last_ckpt, h]

/-- Two numbered checkpoints (epochs 3 and 5), no others. -/
def demoDir35 : FS Nat :=
  [(strName "3_checkpoint.pt", 3), (strName "5_checkpoint.pt", 5)]

/-- C6 witness: requesting `specify = 7` when only epochs 3 and 5 exist
fails, although numbered checkpoints are present. -/
theorem get_last_ckpt_specify_witness :
    fsRead demoDir35 (strName "7" ++ ckSuffix) = none ∧
    fetch_ckpt_namelist (listdir demoDir35) ckSuffix ≠ some [] ∧
    get_last_ckpt demoDir35 () ckSuffix (some (strName "7")) = none := by
  have h : fsRead demoDir35 (strName "7" ++ ckSuffix) = none := by decide
  exact ⟨h, by decide, (get_last_ckpt_specify demoDir35 () ckSuffix (strName "7")).1 h⟩

/-- C7: without `specify`, an empty numbered listing is not an error — the
"last" slot is simply absent; the "best" slot is present exactly when the
file `best ++ suffix` exists; and on an empty directory the call returns
`(absent, absent)`. -/
theorem get_last_ckpt_no_ckpts {R D : Type} (fs : FS R) (device : D)
    (suffix : FName) :
    (fetch_ckpt_namelist (listdir fs) suffix = some [] →
      get_last_ckpt fs device suffix none
        = some (none, fsRead fs (bestStr ++ suffix))) ∧
    (∀ l b, get_last_ckpt fs device suffix none = some (l, b) →
      (b.isSome ↔ (fsRead fs (bestStr ++ suffix)).isSome)) ∧
    get_last_ckpt ([] : FS R) device suffix none = some (none, none) := by
  refine ⟨?_, ?_, ?_⟩
  · intro h
    simp [get_last_ckpt, h]
  · intro l b h
    simp only [get_last_ckpt] at h
    cases hf : fetch_ckpt_namelist (listdir fs) suffix with
    | none => rw [hf] at h; dsimp only at h; cases h
    | some ckpts =>
      rw [hf] at h
      dsimp only at h
      cases hl : ckpts.getLast? with
      | none =>
        rw [hl] at h
        dsimp only at h
        injection h with h
        injection h with h1 h2
        subst h2
        exact Iff.rfl
      | some p =>
        rw [hl] at h
        dsimp only at h
        cases hr : fsRead fs p.1 with
        | none => rw [hr] at h; dsimp only at h; cases h
        | some r =>
          rw [hr] at h
          dsimp only at h
          injection h with h
          injection h with h1 h2
          subst h2
          exact Iff.rfl
  · rfl

/-- C7 witness: the empty directory yields `(absent, absent)` without
raising. -/
theorem get_last_ckpt_no_ckpts_witness :
    fetch_ckpt_namelist (listdir ([] : FS Nat)) ckSuffix = some [] ∧
    get_last_ckpt ([] : FS Nat) () ckSuffix none = some (none, none) := by
  have h : fetch_ckpt_namelist (listdir ([] : FS Nat)) ckSuffix = some [] := by decide
  have h2 := (get_last_ckpt_no_ckpts ([] : FS Nat) () ckSuffix).1 h
  exact ⟨h, by simpa using h2⟩

/-! ## The operation trace of `save_ckpt` (C8) -/

/-- A primitive filesystem operation performed by `save_ckpt`. -/
inductive FsOp (R : Type) where
  | write : FName → R → FsOp R
  | remove : FName → FsOp R

/-- Whether an operation is a deletion. -/
def FsOp.isRemove {R : Type} : FsOp R → Bool
  | .write _ _ => false
  | .remove _ => true

/-- Apply one operation to a directory. -/
def applyOp {R : Type} (fs : FS R) : FsOp R → FS R
  | .write n r => fsWrite fs n r
  | .remove n => fsRemove fs n

/-- Apply a sequence of operations in order. -/
def applyOps {R : Type} (fs : FS R) (ops : List (FsOp R)) : FS R :=
  ops.foldl applyOp fs

/-- The sequence of filesystem operations `save_ckpt` performs, in program
order: first the `torch.save` of the new record, then (when the re-listing
succeeds and the retention limit is exceeded) the `os.remove` calls on the
oldest numbered files.  A failing re-listing aborts after the write. -/
def save_ckpt_ops {E L MS OS SS M O S : Type}
    (sdM : M → MS) (sdO : O → OS) (sdS : S → SS)
    (epoch : E) (best_valid_loss : L) (best_valid_epoch : E)
    (model : M) (optimizer : O) (scheduler : S)
    (fs : FS (CkptDict E L MS OS SS)) (pre suffix : FName) (max_to_keep : Nat) :
    List (FsOp (CkptDict E L MS OS SS)) :=
  let ckptdict := mkCkptDict sdM sdO sdS epoch best_valid_loss best_valid_epoch
    model optimizer scheduler
  let fs1 := fsWrite fs (pre ++ suffix) ckptdict
  FsOp.write (pre ++ suffix) ckptdict ::
    (match fetch_ckpt_namelist (listdir fs1) suffix with
     | none => []
     | some ckpts =>
       if ckpts.length > max_to_keep then
         (ckpts.take (ckpts.length - max_to_keep)).map (fun p => FsOp.remove p.1)
       else [])

theorem applyOps_removes {R : Type} :
    ∀ (l : List (FName × Int)) (fs : FS R),
      applyOps fs (l.map (fun p => FsOp.remove p.1))
        = l.foldl (fun f p => fsRemove f p.1) fs := by
  intro l
  induction l with
  | nil => intro fs; rfl
  | cons p rest ih =>
    intro fs
    simp only [List.map_cons, applyOps, List.foldl_cons, applyOp]
    simpa [applyOps] using ih (fsRemove fs p.1)

/-- C8: the operation trace of `save_ckpt` starts with the write of the new
checkpoint file and everything after it is a deletion — the new file is
fully written before any old-file deletion begins; a successful `save_ckpt`
computes exactly the directory obtained by applying that trace in order. -/
theorem save_ckpt_write_before_delete {E L MS OS SS M O S : Type}
    (sdM : M → MS) (sdO : O → OS) (sdS : S → SS)
    (epoch : E) (bvl : L) (bve : E) (model : M) (optimizer : O) (scheduler : S)
    (fs : FS (CkptDict E L MS OS SS)) (pre suffix : FName) (maxk : Nat) :
    (save_ckpt_ops sdM sdO sdS epoch bvl bve model optimizer scheduler
        fs pre suffix maxk).head?
      = some (FsOp.write (pre ++ suffix)
          (mkCkptDict sdM sdO sdS epoch bvl bve model optimizer scheduler)) ∧
    (∀ op ∈ (save_ckpt_ops sdM sdO sdS epoch bvl bve model optimizer scheduler
        fs pre suffix maxk).tail, op.isRemove = true) ∧
    (∀ fs2 ck, save_ckpt sdM sdO sdS epoch bvl bve model optimizer scheduler
        fs pre suffix maxk = some (fs2, ck) →
      fs2 = applyOps fs (save_ckpt_ops sdM sdO sdS epoch bvl bve model optimizer
        scheduler fs pre suffix maxk)) := by
  refine ⟨rfl, ?_, ?_⟩
  · intro op hop
    simp only [save_ckpt_ops, List.tail_cons] at hop
    cases hfetch : fetch_ckpt_namelist
        (listdir (fsWrite fs (pre ++ suffix)
          (mkCkptDict sdM sdO sdS epoch bvl bve model optimizer scheduler))) suffix with
    | none => rw [hfetch] at hop; dsimp only at hop; cases hop
    | some ckpts =>
      rw [hfetch] at hop
      dsimp only at hop
      by_cases hgt : ckpts.length > maxk
      · rw [if_pos hgt] at hop
        rcases List.mem_map.mp hop with ⟨p, -, rfl⟩
        rfl
      · rw [if_neg hgt] at hop
        cases hop
  · intro fs2 ck hsv
    simp only [save_ckpt] at hsv
    simp only [save_ckpt_ops]
    cases hfetch : fetch_ckpt_namelist
        (listdir (fsWrite fs (pre ++ suffix)
          (mkCkptDict sdM sdO sdS epoch bvl bve model optimizer scheduler))) suffix with
    | none => rw [hfetch] at hsv; dsimp only at hsv; cases hsv
    | some ckpts =>
      rw [hfetch] at hsv
      dsimp only at hsv ⊢
      by_cases hgt : ckpts.length > maxk
      · rw [if_pos hgt] at hsv
        rw [if_pos hgt]
        injection hsv with hsv
        injection hsv with hfs2 hck
        subst hfs2
        rw [← applyOps_removes]
        simp only [applyOps, List.foldl_cons, applyOp]
      · rw [if_neg hgt] at hsv
        rw [if_neg hgt]
        injection hsv with hsv
        injection hsv with hfs2 hck
        subst hfs2
        rfl

/-- C8 witness: the trace semantics agrees with the fifth demo save. -/
theorem save_ckpt_write_before_delete_witness :
    demoSave (demoFS 4) 5 = some (demoFS 5, ⟨5, 0, 5, (), (), ()⟩) ∧
    demoFS 5 = applyOps (demoFS 4)
      (save_ckpt_ops (fun _ => ()) (fun _ => ()) (fun _ => ()) 5 0 5 () () ()
        (demoFS 4) (strName "5") ckSuffix 3) := by
  have hsv : demoSave (demoFS 4) 5 = some (demoFS 5, ⟨5, 0, 5, (), (), ()⟩) := by
    decide
  exact ⟨hsv, (save_ckpt_write_before_delete (fun _ => ()) (fun _ => ()) (fun _ => ())
    5 0 5 () () () (demoFS 4) (strName "5") ckSuffix 3).2.2 (demoFS 5) _ hsv⟩

/-! ## The argument container `MyArgs` -/

mutual
/-- A Python value handed to `MyArgs`: either a mapping (`dict`) or any other
value, kept opaque as a leaf of type `P`. -/
inductive JVal (P : Type) where
| leaf : P → JVal P
| dict : JDict P → JVal P

/-- A Python mapping in insertion order: the argument of `MyArgs(**argdict)`
and the result of `to_argdict`. -/
inductive JDict (P : Type) where
| nil : JDict P
| cons : FName → JVal P → JDict P → JDict P
end

mutual
/-- A value stored in a `MyArgs.__dict__` slot: a nested `MyArgs` object for
mapping-valued arguments, the raw value otherwise. -/
inductive AVal (P : Type) where
| raw : P → AVal P
| obj : MyArgs P → AVal P

/-- The `__dict__` of a `MyArgs` object, in insertion order. -/
inductive MyArgs (P : Type) where
| nil : MyArgs P
| cons : FName → AVal P → MyArgs P → MyArgs P
end

deriving instance DecidableEq for JVal
deriving instance DecidableEq for JDict
deriving instance DecidableEq for AVal
deriving instance DecidableEq for MyArgs

mutual
/-- Python `MyArgs.__init__(**argdict)`: bind every key; a `dict` value becomes a
nested `MyArgs`, any other value is bound as-is. -/
def MyArgs.init {P : Type} : JDict P → MyArgs P
| .nil => .nil
| .cons k v rest => .cons k (MyArgs.initVal v) (MyArgs.init rest)

/-- The per-value rule of `MyArgs.__init__` (`if isinstance(v, dict)`). -/
def MyArgs.initVal {P : Type} : JVal P → AVal P
| .leaf p => .raw p
| .dict d => .obj (MyArgs.init d)
end

mutual
/-- Python `MyArgs.to_argdict()`: unwrap every binding back to a mapping, recursing
into nested `MyArgs` values. -/
def MyArgs.to_argdict {P : Type} : MyArgs P → JDict P
| .nil => .nil
| .cons k v rest => .cons k (MyArgs.exportVal v) (MyArgs.to_argdict rest)

/-- The per-value rule of `to_argdict` (`if isinstance(v, MyArgs)`). -/
def MyArgs.exportVal {P : Type} : AVal P → JVal P
| .raw p => .leaf p
| .obj a => .dict (MyArgs.to_argdict a)
end

/-- Python dict assignment `self.__dict__[k] = v`: overwrite the binding of
an existing key in place, otherwise append the new binding at the end. -/
def MyArgs.setKey {P : Type} : MyArgs P → FName → AVal P → MyArgs P
| .nil, k, v => .cons k v .nil
| .cons k0 v0 rest, k, v =>
  if k0 = k then .cons k0 v rest else .cons k0 v0 (MyArgs.setKey rest k v)

/-- Look up the binding of a key in a `MyArgs.__dict__`. -/
def MyArgs.getKey {P : Type} : MyArgs P → FName → Option (AVal P)
| .nil, _ => none
| .cons k0 v0 rest, k => if k0 = k then some v0 else MyArgs.getKey rest k

/-- Python `MyArgs.load_argdict(argdict)`: for each incoming key, overwrite the
binding using the same per-value rule as `__init__`. -/
def MyArgs.load_argdict {P : Type} : MyArgs P → JDict P → MyArgs P
| self, .nil => self
| self, .cons k v rest =>
  MyArgs.load_argdict (MyArgs.setKey self k (MyArgs.initVal v)) rest

/-- The keys of a mapping, in order. -/
def JDict.keys {P : Type} : JDict P → List FName
| .nil => []
| .cons k _ rest => k :: JDict.keys rest

/-- First-occurrence lookup in a mapping. -/
def JDict.find? {P : Type} : JDict P → FName → Option (JVal P)
| .nil, _ => none
| .cons k0 v0 rest, k => if k0 = k then some v0 else JDict.find? rest k

mutual
theorem myargs_roundtrip_dict {P : Type} :
    ∀ d : JDict P, MyArgs.to_argdict (MyArgs.init d) = d
  | .nil => rfl
  | .cons k v rest => by
    simp only [MyArgs.init, MyArgs.to_argdict, myargs_roundtrip_val v,
      myargs_roundtrip_dict rest]

theorem myargs_roundtrip_val {P : Type} :
    ∀ v : JVal P, MyArgs.exportVal (MyArgs.initVal v) = v
  | .leaf p => rfl
  | .dict d => by
    simp only [MyArgs.initVal, MyArgs.exportVal, myargs_roundtrip_dict d]
end

/-- C2: the round-trip law `Export(Construct(m)) == m` for every finite
acyclic nested mapping, where `Construct` wraps exactly the mapping-valued
entries (second conjunct) and binds every other value as-is (third
conjunct). -/
theorem myargs_export_construct {P : Type} (m : JDict P) :
    MyArgs.to_argdict (MyArgs.init m) = m ∧
    (∀ d : JDict P, MyArgs.initVal (JVal.dict d) = AVal.obj (MyArgs.init d)) ∧
    (∀ p : P, MyArgs.initVal (JVal.leaf p) = AVal.raw p) :=
  ⟨myargs_roundtrip_dict m, fun _ => rfl, fun _ => rfl⟩

theorem getKey_setKey_self {P : Type} :
    ∀ (s : MyArgs P) (k : FName) (v : AVal P),
      (s.setKey k v).getKey k = some v
  | .nil, k, v => by simp [MyArgs.setKey, MyArgs.getKey]
  | .cons k0 v0 rest, k, v => by
    by_cases h : k0 = k
    · simp [MyArgs.setKey, MyArgs.getKey, h]
    · simp only [MyArgs.setKey, MyArgs.getKey, h, if_false]
      exact getKey_setKey_self rest k v

theorem getKey_setKey_ne {P : Type} :
    ∀ (s : MyArgs P) (k k2 : FName) (v : AVal P), k ≠ k2 →
      (s.setKey k v).getKey k2 = s.getKey k2
  | .nil, k, k2, v, hne => by
    simp [MyArgs.setKey, MyArgs.getKey, hne]
  | .cons k0 v0 rest, k, k2, v, hne => by
    by_cases h : k0 = k
    · subst h
      simp [MyArgs.setKey, MyArgs.getKey, hne]
    · simp only [MyArgs.setKey, MyArgs.getKey, h, if_false]
      by_cases h2 : k0 = k2
      · simp [MyArgs.getKey, h2]
      · simp only [MyArgs.getKey, h2, if_false]
        exact getKey_setKey_ne rest k k2 v hne

theorem jdict_find_none_of_not_mem {P : Type} :
    ∀ (d : JDict P) (k : FName), k ∉ d.keys → d.find? k = none
  | .nil, k, _ => rfl
  | .cons k0 v0 rest, k, h => by
    simp only [JDict.keys, List.mem_cons, not_or] at h
    simp only [JDict.find?]
    rw [if_neg (fun he => h.1 he.symm)]
    exact jdict_find_none_of_not_mem rest k h.2

/-- Keys absent from the incoming mapping keep their binding. -/
theorem load_argdict_find_none {P : Type} :
    ∀ (inc : JDict P) (self : MyArgs P) (k : FName), inc.find? k = none →
      (self.load_argdict inc).getKey k = self.getKey k
  | .nil, self, k, _ => rfl
  | .cons k0 v0 rest, self, k, h => by
    simp only [JDict.find?] at h
    by_cases he : k0 = k
    · rw [if_pos he] at h; cases h
    · rw [if_neg he] at h
      simp only [MyArgs.load_argdict]
      rw [load_argdict_find_none rest _ k h, getKey_setKey_ne self k0 k _ he]

/-- Keys present in the incoming mapping end up bound to the converted
incoming value. -/
theorem load_argdict_find_some {P : Type} :
    ∀ (inc : JDict P) (self : MyArgs P), inc.keys.Nodup →
      ∀ (k : FName) (v : JVal P), inc.find? k = some v →
        (self.load_argdict inc).getKey k = some (MyArgs.initVal v)
  | .nil, self, _, k, v, h => by cases h
  | .cons k0 v0 rest, self, hnd, k, v, h => by
    simp only [JDict.find?] at h
    rcases List.nodup_cons.mp hnd with ⟨hk0, hnd2⟩
    by_cases he : k0 = k
    · rw [if_pos he] at h
      injection h with h
      subst h
      subst he
      simp only [MyArgs.load_argdict]
      rw [load_argdict_find_none rest _ k0 (jdict_find_none_of_not_mem rest k0 hk0)]
      exact getKey_setKey_self self k0 _
    · rw [if_neg he] at h
      simp only [MyArgs.load_argdict]
      exact load_argdict_find_some rest _ hnd2 k v h

/-- C9: `load_argdict` applies the `__init__` per-key rule against the
existing container: every incoming key is overwritten with the converted
incoming value (a nested node is replaced wholesale, mapping values become
new nested containers via `MyArgs.initVal`), and every key absent from the
incoming mapping keeps its binding. -/
theorem myargs_load_argdict_spec {P : Type} (self : MyArgs P) (inc : JDict P)
    (hnd : inc.keys.Nodup) :
    (∀ (k : FName) (v : JVal P), inc.find? k = some v →
      (self.load_argdict inc).getKey k = some (MyArgs.initVal v)) ∧
    (∀ k : FName, inc.find? k = none →
      (self.load_argdict inc).getKey k = self.getKey k) :=
  ⟨fun k v h => load_argdict_find_some inc self hnd k v h,
   fun k h => load_argdict_find_none inc self k h⟩

/-- The mapping with a nested node at key `a` and a leaf 2 at key `b`. -/
def demoBaseDict : JDict Nat :=
  .cons (strName "a") (.dict (.cons (strName "x") (.leaf 1) .nil))
    (.cons (strName "b") (.leaf 2) .nil)

/-- An incoming mapping with a single nested node at key `a`, replacing the old node wholesale. -/
def demoIncDict : JDict Nat :=
  .cons (strName "a") (.dict (.cons (strName "y") (.leaf 3) .nil)) .nil

/-- C9 witness: merging `{a: {y: 3}}` into the container for
`{a: {x: 1}, b: 2}` rebinds `a` to a fresh nested container and leaves `b`
untouched. -/
theorem myargs_load_argdict_spec_witness :
    demoIncDict.keys.Nodup ∧
    ((MyArgs.init demoBaseDict).load_argdict demoIncDict).getKey (strName "a")
      = some (MyArgs.initVal (.dict (.cons (strName "y") (.leaf 3) .nil))) ∧
    ((MyArgs.init demoBaseDict).load_argdict demoIncDict).getKey (strName "b")
      = (MyArgs.init demoBaseDict).getKey (strName "b") := by
  have hnd : demoIncDict.keys.Nodup := by decide
  refine ⟨hnd, ?_, ?_⟩
  · exact (myargs_load_argdict_spec (MyArgs.init demoBaseDict) demoIncDict hnd).1
      (strName "a") (.dict (.cons (strName "y") (.leaf 3) .nil)) (by decide)
  · exact (myargs_load_argdict_spec (MyArgs.init demoBaseDict) demoIncDict hnd).2
      (strName "b") (by decide)

/-! ## Claims about `load_ckpt` -/

/-- C5: when the direct model import fails, the model is wrapped, the state
is imported into the wrapper, and the bare unwrapped model — `unwrap w`, of
the bare model type — is returned; when the wrapped import fails too, the
failure propagates uncaught, whatever `restore_opt_sche` is. -/
theorem load_ckpt_wrap_retry {E L MS OS SS M W O S : Type}
    (loadM : M → MS → Option M) (wrap : M → W) (loadW : W → MS → Option W)
    (unwrap : W → M) (loadO : O → OS → Option O) (loadS : S → SS → Option S)
    (model : M) (optimizer : O) (scheduler : S) (ckpt : CkptDict E L MS OS SS)
    (hfail : loadM model ckpt.model = none) :
    (∀ w, loadW (wrap model) ckpt.model = some w →
      load_ckpt loadM wrap loadW unwrap loadO loadS model optimizer scheduler
          ckpt false
        = some (ckpt.epoch, ckpt.best_valid_loss, ckpt.best_valid_epoch,
                unwrap w, optimizer, scheduler) ∧
      (∀ (flag : Bool) (e : E) (l : L) (b : E) (m : M) (o : O) (s : S),
        load_ckpt loadM wrap loadW unwrap loadO loadS model optimizer scheduler
            ckpt flag = some (e, l, b, m, o, s) → m = unwrap w)) ∧
    (loadW (wrap model) ckpt.model = none →
      ∀ flag : Bool, load_ckpt loadM wrap loadW unwrap loadO loadS model
        optimizer scheduler ckpt flag = none) := by
  constructor
  · intro w hw
    constructor
    · simp [load_ckpt, hfail, hw]
    · intro flag e l b m o s h
      simp only [load_ckpt, hfail, hw] at h
      cases flag with
      | false =>
        simp only [Bool.false_eq_true, if_false, Option.some.injEq,
          Prod.mk.injEq] at h
        exact h.2.2.2.1.symm
      | true =>
        simp only [if_true] at h
        cases ho : loadO optimizer ckpt.optimizer with
        | none => rw [ho] at h; dsimp only at h; cases h
        | some o2 =>
          rw [ho] at h
          dsimp only at h
          cases hs : loadS scheduler ckpt.scheduler with
          | none => rw [hs] at h; dsimp only at h; cases h
          | some s2 =>
            rw [hs] at h
            dsimp only at h
            simp only [Option.some.injEq, Prod.mk.injEq] at h
            exact h.2.2.2.1.symm
  · intro hw flag
    simp [load_ckpt, hfail, hw]

/-- Checkpoint state dicts for the modelled framework collaborators: a map
from parameter name to parameter value. -/
abbrev SDict (V : Type) := List (FName × V)

/-- The parameter names of a state dict. -/
def sdKeys {V : Type} (sd : SDict V) : List FName := sd.map Prod.fst

/-- Whether a state dict binds the given parameter name. -/
def sdHas {V : Type} (sd : SDict V) (k : FName) : Bool :=
  (sdKeys sd).contains k

/-- Modelled from the spec: the strict key check of the framework's
state-dict import (an out-of-scope collaborator of the module) — the import
succeeds exactly when the incoming keys coincide with the target's
parameter names. -/
def keysMatch {V : Type} (a b : SDict V) : Bool :=
  (sdKeys a).all (fun k => sdHas b k) && (sdKeys b).all (fun k => sdHas a k)

/-- Modelled from the spec: `model.load_state_dict(sd)` on a bare module —
fails (raises) unless the keys match, otherwise replaces the parameters. -/
def pmLoad {V : Type} (m : SDict V) (sd : SDict V) : Option (SDict V) :=
  if keysMatch m sd then some sd else none

/-- Modelled from the spec: the data-parallel wrapper, holding the wrapped
module and exposing its parameters under the `module.`-prefixed names. -/
structure DPModel (V : Type) where
  module : SDict V
deriving DecidableEq

/-- Modelled from the spec: `torch.nn.DataParallel(model)`. -/
def dpWrap {V : Type} (m : SDict V) : DPModel V := ⟨m⟩

/-- The wrapper's key namespace marker. -/
def moduleDot : FName := strName "module."

/-- The wrapper's own state dict: every wrapped parameter name gains the
`module.` namespace. -/
def dpSd {V : Type} (w : DPModel V) : SDict V :=
  w.module.map (fun p => (moduleDot ++ p.1, p.2))

/-- Modelled from the spec: `load_state_dict` on the wrapper — succeeds
exactly when the incoming keys match the `module.`-prefixed names, storing
the values into the wrapped module. -/
def dpLoad {V : Type} (w : DPModel V) (sd : SDict V) : Option (DPModel V) :=
  if keysMatch (dpSd w) sd then
    some ⟨sd.map (fun p => (p.1.drop moduleDot.length, p.2))⟩
  else none

/-- Modelled from the spec: `wrapper.module`, the bare wrapped model. -/
def dpModule {V : Type} (w : DPModel V) : SDict V := w.module

/-- A bare one-parameter model. -/
def demoBareModel : SDict Nat := [(strName "w", 0)]

/-- A record whose model keys are wrapper-prefixed (`module.w`). -/
def demoWrappedCkpt : CkptDict Nat Nat (SDict Nat) Unit Unit :=
  ⟨7, 1, 6, [(strName "module.w", 5)], (), ()⟩

/-- C5 witness: a record with `module.`-prefixed keys fails the
direct import into the bare model, succeeds through the wrapper, and
`load_ckpt` returns the bare updated model, not the wrapper. -/
theorem load_ckpt_wrap_retry_witness :
    pmLoad demoBareModel demoWrappedCkpt.model = none ∧
    load_ckpt pmLoad dpWrap dpLoad dpModule (fun o _ => some o) (fun s _ => some s)
        demoBareModel () () demoWrappedCkpt false
      = some (7, 1, 6, [(strName "w", 5)], (), ()) := by
  have hfail : pmLoad demoBareModel demoWrappedCkpt.model = none := by decide
  have hw : dpLoad (dpWrap demoBareModel) demoWrappedCkpt.model
      = some ⟨[(strName "w", 5)]⟩ := by decide
  exact ⟨hfail,
    ((load_ckpt_wrap_retry pmLoad dpWrap dpLoad dpModule (fun o _ => some o)
      (fun s _ => some s) demoBareModel () () demoWrappedCkpt hfail).1
      ⟨[(strName "w", 5)]⟩ hw).1⟩

/-- C10: with `restore_opt_sche = false`, `load_ckpt` never touches the
optimizer or scheduler import operations — the result does not depend on
them at all — and the returned optimizer and scheduler are the given
objects, unchanged. -/
theorem load_ckpt_frame {E L MS OS SS M W O S : Type}
    (loadM : M → MS → Option M) (wrap : M → W) (loadW : W → MS → Option W)
    (unwrap : W → M) (loadO loadO2 : O → OS → Option O)
    (loadS loadS2 : S → SS → Option S)
    (model : M) (optimizer : O) (scheduler : S) (ckpt : CkptDict E L MS OS SS) :
    load_ckpt loadM wrap loadW unwrap loadO loadS model optimizer scheduler
        ckpt false
      = load_ckpt loadM wrap loadW unwrap loadO2 loadS2 model optimizer scheduler
        ckpt false ∧
    (∀ (e : E) (l : L) (b : E) (m : M) (o : O) (s : S),
      load_ckpt loadM wrap loadW unwrap loadO loadS model optimizer scheduler
          ckpt false = some (e, l, b, m, o, s) →
        o = optimizer ∧ s = scheduler) := by
  constructor
  · simp only [load_ckpt, Bool.false_eq_true, if_false]
  · intro e l b m o s h
    simp only [load_ckpt, Bool.false_eq_true, if_false] at h
    cases hm : loadM model ckpt.model with
    | some m2 =>
      rw [hm] at h
      dsimp only at h
      simp only [Option.some.injEq, Prod.mk.injEq] at h
      exact ⟨h.2.2.2.2.1.symm, h.2.2.2.2.2.symm⟩
    | none =>
      rw [hm] at h
      dsimp only at h
      cases hw : loadW (wrap model) ckpt.model with
      | none => rw [hw] at h; dsimp only at h; cases h
      | some w =>
        rw [hw] at h
        dsimp only at h
        simp only [Option.some.injEq, Prod.mk.injEq] at h
        exact ⟨h.2.2.2.2.1.symm, h.2.2.2.2.2.symm⟩

/-- C10 witness: the frame property at the concrete wrapped-record demo,
with a second pair of import operations that always fail. -/
theorem load_ckpt_frame_witness :
    load_ckpt pmLoad dpWrap dpLoad dpModule (fun o _ => some o) (fun s _ => some s)
        demoBareModel (3 : Nat) (4 : Nat) demoWrappedCkpt false
      = load_ckpt pmLoad dpWrap dpLoad dpModule (fun _ _ => none) (fun _ _ => none)
        demoBareModel (3 : Nat) (4 : Nat) demoWrappedCkpt false ∧
    ((3 : Nat) = 3 ∧ (4 : Nat) = 4) := by
  have hload : load_ckpt pmLoad dpWrap dpLoad dpModule (fun o _ => some o)
      (fun s _ => some s) demoBareModel (3 : Nat) (4 : Nat) demoWrappedCkpt false
      = some (7, 1, 6, [(strName "w", 5)], 3, 4) := by rfl
  refine ⟨(load_ckpt_frame pmLoad dpWrap dpLoad dpModule (fun o _ => some o)
      (fun _ _ => none) (fun s _ => some s) (fun _ _ => none)
      demoBareModel 3 4 demoWrappedCkpt).1, ?_⟩
  exact (load_ckpt_frame pmLoad dpWrap dpLoad dpModule (fun o _ => some o)
      (fun _ _ => none) (fun s _ => some s) (fun _ _ => none)
      demoBareModel 3 4 demoWrappedCkpt).2 7 1 6 [(strName "w", 5)] 3 4 hload

/-- C4 witness: a non-best file whose prefix `x` is not an integer makes the
listing call fail (the parse error is not caught), by the amended
characterisation. -/
theorem fetch_parse_error_iff_witness :
    fetch_ckpt_namelist [strName "x_checkpoint.pt"] ckSuffix = none := by
  refine (fetch_parse_error_iff [strName "x_checkpoint.pt"] ckSuffix).mpr
    ⟨strName "x_checkpoint.pt", ?_, ?_, ?_, ?_⟩ <;> decide
